import Mathlib

/-!
Verification development for `case_pdf_generator.py`, a clinical-case
PDF formatting utility.  The Python source is shallowly embedded below:
dictionaries become association lists in insertion order (with key-nodup
hypotheses where a real `dict` guarantees uniqueness), Python's stable
`list.sort(key=...)` becomes a stable insertion sort, string methods are
modelled character-by-character on `List Char` (ASCII scope: Python's
Unicode-aware `lower`/`title`/`isalnum` agree with this model on the
ASCII inputs the program manipulates), and dynamically-typed code that
can raise (`AttributeError` from `.get` on a non-dict, `TypeError` from
iterating a non-string) returns `Except String`.
-/

namespace CasePdf

/-- JSON-like values: the dynamic values flowing through the Python code.
Numbers are modelled as integers (no claim depends on float behaviour). -/
inductive JVal where
  | null : JVal
  | str  : String → JVal
  | num  : Int → JVal
  | obj  : List (String × JVal) → JVal
  | list : List JVal → JVal

/-- Python truthiness (`if x:`) for the value shapes above. -/
def pyTruthy : JVal → Bool
  | .null => false
  | .str s => !(s == "")
  | .num n => !(n == 0)
  | .obj fields => !fields.isEmpty
  | .list items => !items.isEmpty

/-- Python whitespace test, ASCII scope: space, tab, LF, VT, FF, CR
(the characters `str.strip()` and the regex class `\s` treat as space). -/
def isPySpace (c : Char) : Bool :=
  c.toNat == 32 || (9 ≤ c.toNat && c.toNat ≤ 13)

/-- Model of `str.strip()`: drop leading and trailing whitespace. -/
def pyStripL (l : List Char) : List Char :=
  ((l.dropWhile isPySpace).reverse.dropWhile isPySpace).reverse

/-- Model of `str.lower()` (ASCII scope), using core `Char.toLower`. -/
def pyLowerStr (s : String) : String :=
  String.mk (s.data.map Char.toLower)

/-- Character class `[_\s]` of the regex at line 62 of the source. -/
def isUndSpace (c : Char) : Bool :=
  c == '_' || isPySpace c

/-- Model of `re.sub(r"[_\s]+", " ", s)`: each maximal run of
underscores/whitespace is collapsed to a single space.  The flag records
whether we are inside such a run. -/
def collapseRuns : List Char → Bool → List Char
  | [], _ => []
  | c :: rest, inRun =>
    if isUndSpace c then
      if inRun then collapseRuns rest true
      else ' ' :: collapseRuns rest true
    else c :: collapseRuns rest false

/-- ASCII lowercase letter (regex class `[a-z]`). -/
def isAsciiLower (c : Char) : Bool := 97 ≤ c.toNat && c.toNat ≤ 122

/-- ASCII uppercase letter (regex class `[A-Z]`). -/
def isAsciiUpper (c : Char) : Bool := 65 ≤ c.toNat && c.toNat ≤ 90

/-- Model of `re.sub(r"(?<=[a-z])(?=[A-Z])", " ", s)`: insert a space at
each boundary between a lowercase and an uppercase ASCII letter. -/
def camelSplit : List Char → List Char
  | [] => []
  | [c] => [c]
  | a :: b :: rest =>
    if isAsciiLower a && isAsciiUpper b then a :: ' ' :: camelSplit (b :: rest)
    else a :: camelSplit (b :: rest)

/-- Model of `str.title()` (ASCII scope): a letter is uppercased when the
previous character is not a letter, lowercased otherwise; non-letters
pass through and reset the word state. -/
def pyTitleGo : Bool → List Char → List Char
  | _, [] => []
  | prevCased, c :: rest =>
    (if c.isAlpha then (if prevCased then c.toLower else c.toUpper) else c)
      :: pyTitleGo c.isAlpha rest

/-- Model of `str.title()`, see `pyTitleGo`. -/
def pyTitleL (l : List Char) : List Char := pyTitleGo false l

/-- Worker for `str.replace`: scan left to right; `0` means we are
scanning, `n+1` means `n+1` more characters of a just-matched pattern
occurrence remain to be dropped. -/
def replaceAllGo (pat rep : List Char) : List Char → Nat → List Char
  | [], _ => []
  | _ :: rest, n+1 => replaceAllGo pat rep rest n
  | c :: rest, 0 =>
    if pat.isPrefixOf (c :: rest) then rep ++ replaceAllGo pat rep rest (pat.length - 1)
    else c :: replaceAllGo pat rep rest 0

/-- Model of `s.replace(pat, rep)`: leftmost, non-overlapping.  The
source only ever calls `replace` with non-empty patterns, so the empty
pattern is mapped to the identity. -/
def replaceAllL (s pat rep : List Char) : List Char :=
  if pat.isEmpty then s else replaceAllGo pat rep s 0

/-- The `fixes` acronym table of `_pretty_label` (lines 42-54), in source
order.  Python `dict` lookup on distinct literal keys is association-list
lookup. -/
def fixes : List (String × String) :=
  [("iop", "IOP"), ("ioP", "IOP"), ("rnfl", "RNFL"), ("cd_ratio", "C/D ratio"),
   ("tbut", "TBUT"), ("tbuts", "TBUTs"), ("va", "VA"), ("onh", "ONH"),
   ("oct", "OCT"), ("vf", "VF"), ("hvf", "HVF")]

/-- The `replacements` table of `_pretty_label` (lines 77-87), applied in
source (insertion) order after title-casing. -/
def replacements : List (String × String) :=
  [("Iop", "IOP"), ("Va", "VA"), ("Rnfl", "RNFL"), ("Cd Ratio", "C/D ratio"),
   ("Onh", "ONH"), ("Oct", "OCT"), ("Vf", "VF"), ("Hvf", "HVF"), ("Tbut", "TBUT")]

/-- Model of `_pretty_label` (lines 35-90 of the source). -/
def _pretty_label (key : String) : String :=
  if key = "" then ""
  else
    let kNorm := pyStripL key.data
    let kLower := kNorm.map Char.toLower
    match List.lookup (String.mk kLower) fixes with
    | some v => v
    | none =>
      let s1 := collapseRuns kNorm false
      let s2 := camelSplit s1
      let s3 := pyStripL (s2.map Char.toLower)
      let s4 := replaceAllL s3 "tear breakup time".data "Tear break-up time".data
      let s5 := replaceAllL s4 "fundus exam".data "Fundus exam".data
      let s6 := replaceAllL s5 "optic nerve".data "Optic nerve".data
      let nice := pyTitleL s6
      let nice2 := replacements.foldl
        (fun acc ab => replaceAllL acc ab.1.data ab.2.data) nice
      String.mk nice2

/-- Substring test (Python `in` on strings): some suffix of `s` has `pat`
as a prefix. -/
def containsSub (pat : List Char) : List Char → Bool
  | [] => pat.isEmpty
  | c :: rest => pat.isPrefixOf (c :: rest) || containsSub pat rest

/-- Python string `<=` comparison: lexicographic on code points. -/
def pyStrLeL : List Char → List Char → Bool
  | [], _ => true
  | _ :: _, [] => false
  | a :: as, b :: bs => if a = b then pyStrLeL as bs else decide (a < b)

/-- The `CLINICAL_PREFERRED_ORDER` table (lines 8-17 of the source). -/
def CLINICAL_PREFERRED_ORDER : List String :=
  ["presenting_va", "unaided_va", "near_va",
   "subjective_refraction", "near_add",
   "tonometry", "ioP", "pachymetry",
   "pupils", "cover_test",
   "slit_lamp_exam", "anterior_segment",
   "fundus", "fundus_exam",
   "gonioscopy", "optic_nerve", "visual_fields",
   "tear_breakup_time", "tbuts", "keratometry"]

/-- The `IMAGING_PREFERRED_ORDER` table (lines 19-23 of the source). -/
def IMAGING_PREFERRED_ORDER : List String :=
  ["oct", "rnfl", "mac_oct", "macular_oct",
   "fundus_photo", "fundus_photography",
   "hvf", "vf", "gdx", "hRT"]

/-- Test `v not in (None, "")` of lines 110 and 115: keep values that are
neither `None` nor the empty string. -/
def keepVal : JVal → Bool
  | .null => false
  | .str s => !(s == "")
  | _ => true

/-- Test `data.get(k) not in (None, "")`: `get` with default `None`. -/
def keepGet : Option JVal → Bool
  | none => false
  | some v => keepVal v

/-- Python `dict` insertion (`m[key] = v`): an existing key keeps its
position and gets the new value, a new key is appended. -/
def pyDictInsert (m : List (String × String)) (key v : String) : List (String × String) :=
  if m.any (fun q => q.1 == key) then
    m.map (fun q => if q.1 == key then (q.1, v) else q)
  else m ++ [(key, v)]

/-- The comprehension `{k.lower(): k for k in keys}` of line 106: on a
lowercase collision the later key wins. -/
def buildLowerMap (keys : List String) : List (String × String) :=
  keys.foldl (fun m k => pyDictInsert m (pyLowerStr k) k) []

/-- The preferred-order loop of lines 108-112.  State: the `used` set
(modelled as a list) threads through; the emitted pairs are returned in
emission order.  `data` and `lowerMap` are the loop's ambient values. -/
def prefPass (data : List (String × JVal)) (lowerMap : List (String × String)) :
    List String → List String → List String × List (String × JVal)
  | [], used => (used, [])
  | p :: ps, used =>
    match List.lookup (pyLowerStr p) lowerMap with
    | none => prefPass data lowerMap ps used
    | some k =>
      if k ≠ "" ∧ k ∉ used ∧ keepGet (List.lookup k data) = true then
        let r := prefPass data lowerMap ps (k :: used)
        (r.1, (k, (List.lookup k data).getD JVal.null) :: r.2)
      else prefPass data lowerMap ps used

/-- Sort key of line 116: compare fields by the pretty label of the key. -/
def labelLe (a b : String × JVal) : Prop :=
  pyStrLeL (_pretty_label a.1).data (_pretty_label b.1).data = true

instance : DecidableRel labelLe :=
  fun a b => inferInstanceAs
    (Decidable (pyStrLeL (_pretty_label a.1).data (_pretty_label b.1).data = true))

/-- Model of `_ordered_items` (lines 92-118) on a dict argument.  The
trailing `remaining.sort(key=...)` is Python's stable sort, modelled by
the stable `List.insertionSort`. -/
def _ordered_items_dict (data : List (String × JVal)) (preferred_order : List String) :
    List (String × JVal) :=
  let keys := data.map Prod.fst
  let lowerMap := buildLowerMap keys
  let r := prefPass data lowerMap preferred_order []
  let remaining := data.filter (fun kv => !(r.1.contains kv.1) && keepVal kv.2)
  r.2 ++ List.insertionSort labelLe remaining

/-- Model of `_ordered_items` including the `isinstance(data, dict)`
guard of lines 97-98: a non-dict argument yields `[]`. -/
def _ordered_items (data : JVal) (preferred_order : List String) : List (String × JVal) :=
  match data with
  | .obj fields => _ordered_items_dict fields preferred_order
  | _ => []

/-! ### Document composer -/

/-- One flowable appended to `story`: `Paragraph(text, styles[style])`
becomes `para`, the labeled `_p(label, text)` paragraphs become
`labeled`, the `"label: value"` field paragraphs of lines 177/184 become
`fieldLine`, and `Spacer(w, h)` becomes `spacer`. -/
inductive Block where
  | para (text style : String)
  | labeled (label text : String)
  | fieldLine (label text : String)
  | spacer (w h : Nat)
deriving DecidableEq

/-- Python `str()` for the values interpolated into f-strings.  Scalars
are rendered as Python renders them; the `repr` of containers is
abbreviated (no claim inspects it). -/
def pyStr : JVal → String
  | .null => "None"
  | .str s => s
  | .num n => toString n
  | .obj _ => "\x7b...\x7d"
  | .list _ => "[...]"

/-- Python `x.get(key, default)`: raises `AttributeError` unless `x` is a
dict. -/
def pyGet (x : JVal) (key : String) (dflt : JVal) : Except String JVal :=
  match x with
  | .obj fields => .ok ((List.lookup key fields).getD dflt)
  | _ => .error "AttributeError"

/-- Call `_pretty_label` on a dynamic value, as line 154 does: a string
goes through, any other truthy value raises `AttributeError` at
`key.strip()`, and falsy non-strings return `""` at the `if not key`
guard. -/
def prettyLabelAny : JVal → Except String String
  | .str s => .ok (_pretty_label s)
  | v => if pyTruthy v then .error "AttributeError" else .ok ""

/-- Filename sanitization of lines 140 and 205:
`"".join(c if c.isalnum() or c in ("_", "-") else "_" for c in case_id)`
(ASCII scope for `isalnum`). -/
def pySanitize (s : String) : String :=
  String.mk (s.data.map (fun c => if c.isAlphanum || c == '_' || c == '-' then c else '_'))

/-- Derive a filename from the dynamic `case_id` value: iterating a
non-string (`None`, a number, ...) in `"".join(...)` raises `TypeError`.
(Containers of strings are also modelled as this error; the source never
reaches them through the claims considered here.) -/
def sanitizeF : JVal → Except String String
  | .str s => .ok (pySanitize s)
  | _ => .error "TypeError"

/-- Model of `os.path.join` (POSIX, two components). -/
def osPathJoin (a b : String) : String :=
  if b.data.head? = some '/' then b
  else if a = "" ∨ a.data.getLast? = some '/' then a ++ b
  else a ++ "/" ++ b

/-- The clinical-data / imaging sections of lines 173-184: rendered only
when the value is a non-empty dict, as a spacer, a bold block label, and
one `fieldLine` per ordered item. -/
def sectionBlocks (label : String) (v : JVal) (pref : List String) : List Block :=
  match v with
  | .obj fields =>
    if fields.isEmpty then []
    else
      [Block.spacer 1 6, Block.para label "BlockLabel"]
        ++ (_ordered_items (.obj fields) pref).map
            (fun kv => Block.fieldLine (_pretty_label kv.1) (pyStr kv.2))
  | _ => []

/-- The `story` assembly of lines 151-187, as a pure function of the
already-resolved dynamic values. -/
def buildStory (caseIdV topicV : JVal) (topicLabel : String)
    (clinical imaging demV ccV ohV mhV fhGate fhV : JVal) : List Block :=
  [Block.para "Written Exam – Sample Case" "Heading1Center"]
  ++ (if pyTruthy topicV then [Block.para topicLabel "Small"] else [])
  ++ [Block.para "Property of OEBC" "Small", Block.spacer 1 12,
      Block.para "CASE DATA" "Heading2",
      Block.labeled "Case ID" (pyStr caseIdV)]
  ++ (if pyTruthy topicV then [Block.labeled "Topic" (pyStr topicV)] else [])
  ++ [Block.labeled "Demographics" (pyStr demV),
      Block.labeled "Chief Complaint" (pyStr ccV),
      Block.labeled "Ocular History" (pyStr ohV),
      Block.labeled "Medical History" (pyStr mhV)]
  ++ (if pyTruthy fhGate then [Block.labeled "Family History" (pyStr fhV)] else [])
  ++ sectionBlocks "Clinical Data:" clinical CLINICAL_PREFERRED_ORDER
  ++ sectionBlocks "Imaging:" imaging IMAGING_PREFERRED_ORDER
  ++ [Block.spacer 1 6]

/-- Lines 146-187: resolve the dynamic fields in source order (so that a
dynamic-typing error surfaces exactly when the source would raise) and
build the story. -/
def composeStory (case_data caseIdV : JVal) : Except String (List Block) := do
  let topicV ← pyGet case_data "topic" (.str "")
  let cV ← pyGet case_data "case_data" (.obj [])
  let c := if pyTruthy cV then cV else .obj []
  let clinV ← pyGet c "clinical_data" (.obj [])
  let clinical := if pyTruthy clinV then clinV else .obj []
  let imgV ← pyGet c "imaging" (.obj [])
  let imaging := if pyTruthy imgV then imgV else .obj []
  let topicLabel ← prettyLabelAny topicV
  let demV ← pyGet c "demographics" (.str "")
  let ccV ← pyGet c "chief_complaint" (.str "")
  let ohV ← pyGet c "ocular_history" (.str "")
  let mhV ← pyGet c "medical_history" (.str "")
  let fhGate ← pyGet c "family_history" JVal.null
  let fhV ← pyGet c "family_history" (.str "")
  pure (buildStory caseIdV topicV topicLabel clinical imaging demV ccV ohV mhV fhGate fhV)

/-- Model of `case_to_pdf` (lines 120-190): returns the output path and
the story written into the document.  `filename?` is the optional
`filename` parameter; `if not filename:` treats `None` and `""` alike. -/
def case_to_pdf (case_data : JVal) (out_dir : String) (filename? : Option String) :
    Except String (String × List Block) := do
  let caseIdV ← pyGet case_data "case_id" (.str "case")
  let fname ←
    if filename?.getD "" = "" then (fun safe => safe ++ ".pdf") <$> sanitizeF caseIdV
    else pure (filename?.getD "")
  let out_path := osPathJoin out_dir fname
  let story ← composeStory case_data caseIdV
  pure (out_path, story)

/-- Model of `batch_from_json` (lines 192-208) after JSON parsing: wrap a
non-list value in a singleton, then derive each record's filename and
compose it, collecting the output paths in order. -/
def batch_go (out_dir : String) : List JVal → Except String (List String)
  | [] => .ok []
  | case :: rest => do
    let cidV ← pyGet case "case_id" (.str "case")
    let safe ← sanitizeF cidV
    let r ← case_to_pdf case out_dir (some (safe ++ ".pdf"))
    let ps ← batch_go out_dir rest
    pure (r.1 :: ps)

/-- Entry point of `batch_from_json` on the parsed JSON value. -/
def batch_from_json (data : JVal) (out_dir : String) : Except String (List String) :=
  batch_go out_dir (match data with | .list l => l | v => [v])

/-- Preferred-order pass as the spec states it (section 4.2): walk the
preferred list in sequence; for each entry emit the not-yet-emitted field
whose key case-insensitively matches it and whose value is non-empty,
when there is one.  This is the claim-side description against which the
source's `prefPass` is compared. -/
def specPreferredPass : List String → List (String × JVal) → List (String × JVal)
  | [], _ => []
  | p :: ps, d =>
    match d.find? (fun kv => pyLowerStr kv.1 == pyLowerStr p && keepVal kv.2) with
    | none => specPreferredPass ps d
    | some kv => kv :: specPreferredPass ps (d.filter (fun kv2 => !(kv2.1 == kv.1)))

/-- Consequence of claim C1's ordering clause, used to refute it as
universally stated: in the orderer's output, every field whose key
case-insensitively matches some preferred entry precedes every field
whose key matches none (the match flags, in output order, never go from
`false` back to `true`). -/
def matchedFirstClaim (data : List (String × JVal)) (pref : List String) : Prop :=
  ((_ordered_items_dict data pref).map
      (fun kv => pref.any (fun e => pyLowerStr e == pyLowerStr kv.1))).Pairwise
    (fun a b => a = true ∨ b = false)

/-! ### Order lemmas for the sort key -/

theorem pyStrLeL_total : ∀ a b : List Char, pyStrLeL a b = true ∨ pyStrLeL b a = true
  | [], _ => .inl rfl
  | _ :: _, [] => .inr rfl
  | x :: xs, y :: ys => by
    by_cases h : x = y
    · subst h
      simpa [pyStrLeL] using pyStrLeL_total xs ys
    · rcases lt_or_gt_of_ne h with h' | h'
      · left; simp [pyStrLeL, h, h']
      · right; simp [pyStrLeL, Ne.symm h, h']

theorem pyStrLeL_trans : ∀ a b c : List Char,
    pyStrLeL a b = true → pyStrLeL b c = true → pyStrLeL a c = true
  | [], _, _, _, _ => rfl
  | _ :: _, [], _, h, _ => by cases h
  | _ :: _, _ :: _, [], _, h => by cases h
  | x :: xs, y :: ys, z :: zs, h₁, h₂ => by
    by_cases hxy : x = y <;> by_cases hyz : y = z
    · subst hxy; subst hyz
      simp only [pyStrLeL, if_pos rfl] at h₁ h₂ ⊢
      exact pyStrLeL_trans xs ys zs h₁ h₂
    · subst hxy
      simp only [pyStrLeL, if_pos rfl, if_neg hyz, decide_eq_true_eq] at h₂ ⊢
      simp [if_neg hyz, h₂]
    · subst hyz
      simp only [pyStrLeL, if_neg hxy, decide_eq_true_eq] at h₁
      simp [pyStrLeL, if_neg hxy, h₁]
    · simp only [pyStrLeL, if_neg hxy, if_neg hyz, decide_eq_true_eq] at h₁ h₂
      have hxz : x < z := lt_trans h₁ h₂
      simp [pyStrLeL, ne_of_lt hxz, hxz]

theorem pyStrLeL_antisymm : ∀ a b : List Char,
    pyStrLeL a b = true → pyStrLeL b a = true → a = b
  | [], [], _, _ => rfl
  | [], _ :: _, _, h => by cases h
  | _ :: _, [], h, _ => by cases h
  | x :: xs, y :: ys, h₁, h₂ => by
    by_cases hxy : x = y
    · subst hxy
      simp only [pyStrLeL, if_pos rfl] at h₁ h₂
      rw [pyStrLeL_antisymm xs ys h₁ h₂]
    · simp only [pyStrLeL, if_neg hxy, if_neg (Ne.symm hxy), decide_eq_true_eq] at h₁ h₂
      exact absurd h₂ (lt_asymm h₁)

instance : IsTotal (String × JVal) labelLe :=
  ⟨fun a b => pyStrLeL_total (_pretty_label a.1).data (_pretty_label b.1).data⟩

instance : IsTrans (String × JVal) labelLe :=
  ⟨fun a b c => pyStrLeL_trans (_pretty_label a.1).data (_pretty_label b.1).data
    (_pretty_label c.1).data⟩

/-- Antisymmetry of the sort key up to label equality: mutually
`labelLe`-related fields have equal pretty labels. -/
theorem labelLe_antisymm {a b : String × JVal} (h₁ : labelLe a b) (h₂ : labelLe b a) :
    _pretty_label a.1 = _pretty_label b.1 :=
  String.ext (pyStrLeL_antisymm _ _ h₁ h₂)

/-! ### Association-list helpers -/

theorem find?_eq_some_of_unique {α : Type} {p : α → Bool} {l : List α} {a : α}
    (ha : a ∈ l) (hpa : p a = true) (huniq : ∀ b ∈ l, p b = true → b = a) :
    l.find? p = some a := by
  induction l with
  | nil => cases ha
  | cons x xs ih =>
    cases hx : p x with
    | true =>
      have hxa : x = a := huniq x (List.mem_cons_self _ _) hx
      subst hxa
      simp [List.find?_cons, hx]
    | false =>
      have ha' : a ∈ xs := by
        rcases List.mem_cons.1 ha with rfl | h
        · rw [hpa] at hx; cases hx
        · exact h
      simpa [List.find?_cons, hx] using
        ih ha' (fun b hb hpb => huniq b (List.mem_cons_of_mem _ hb) hpb)

theorem find?_eq_of_perm_unique {α : Type} {p : α → Bool} {l₁ l₂ : List α}
    (h : l₁.Perm l₂)
    (huniq : ∀ a ∈ l₁, ∀ b ∈ l₁, p a = true → p b = true → a = b) :
    l₁.find? p = l₂.find? p := by
  cases hf : l₁.find? p with
  | none =>
    rw [List.find?_eq_none] at hf
    symm
    rw [List.find?_eq_none]
    intro x hx
    exact hf x (h.mem_iff.2 hx)
  | some a =>
    symm
    exact find?_eq_some_of_unique (h.mem_iff.1 (List.mem_of_find?_eq_some hf))
      (List.find?_some hf)
      (fun b hb hpb =>
        huniq b (h.mem_iff.2 hb) a (List.mem_of_find?_eq_some hf) hpb (List.find?_some hf))

theorem mem_of_lookup_eq_some {k : String} {v : α} :
    ∀ {l : List (String × α)}, List.lookup k l = some v → (k, v) ∈ l
  | [], h => by cases h
  | (k', v') :: t, h => by
    by_cases hk : k = k'
    · subst hk
      rw [List.lookup_cons_self] at h
      cases h
      exact List.mem_cons_self _ _
    · rw [List.lookup_cons] at h
      simp only [beq_false_of_ne hk] at h
      exact List.mem_cons_of_mem _ (mem_of_lookup_eq_some h)

theorem lookup_eq_some_of_mem {k : String} {v : α} :
    ∀ {l : List (String × α)}, (l.map Prod.fst).Nodup → (k, v) ∈ l →
      List.lookup k l = some v
  | [], _, h => by cases h
  | (k', v') :: t, hn, h => by
    rcases List.mem_cons.1 h with heq | ht
    · cases heq
      simp [List.lookup_cons]
    · have hn' : k' ∉ (t.map Prod.fst) ∧ (t.map Prod.fst).Nodup := by
        simpa [List.nodup_cons] using hn
      have hk : k ≠ k' := by
        intro heq
        subst heq
        exact hn'.1 (List.mem_map_of_mem Prod.fst ht)
      rw [List.lookup_cons]
      simp only [beq_false_of_ne hk]
      exact lookup_eq_some_of_mem hn'.2 ht

theorem lookup_eq_of_perm_nodup {l₁ l₂ : List (String × α)} (hp : l₁.Perm l₂)
    (hn : (l₁.map Prod.fst).Nodup) (k : String) :
    List.lookup k l₁ = List.lookup k l₂ := by
  have hn₂ : (l₂.map Prod.fst).Nodup := ((hp.map Prod.fst).nodup_iff).1 hn
  cases h₁ : List.lookup k l₁ with
  | some v =>
    exact (lookup_eq_some_of_mem hn₂ (hp.mem_iff.1 (mem_of_lookup_eq_some h₁))).symm
  | none =>
    cases h₂ : List.lookup k l₂ with
    | none => rfl
    | some v =>
      rw [lookup_eq_some_of_mem hn (hp.mem_iff.2 (mem_of_lookup_eq_some h₂))] at h₁
      cases h₁

/-- Fields of a nodup-key association list are determined by their key. -/
theorem pair_eq_of_fst_eq {l : List (String × α)} (hn : (l.map Prod.fst).Nodup)
    {a b : String × α} (ha : a ∈ l) (hb : b ∈ l) (h : a.1 = b.1) : a = b :=
  List.inj_on_of_nodup_map hn ha hb h

theorem not_contains_iff (l : List String) (x : String) :
    ((!(l.contains x)) = true) ↔ x ∉ l := by
  rw [Bool.not_eq_true']
  constructor
  · intro h hx
    have hc : l.contains x = true := by
      rw [List.contains_iff_exists_mem_beq]
      exact ⟨x, hx, by simp⟩
    rw [hc] at h
    cases h
  · intro h
    cases hc : l.contains x
    · rfl
    · rw [List.contains_iff_exists_mem_beq] at hc
      obtain ⟨y, hy, hxy⟩ := hc
      rw [beq_iff_eq] at hxy
      exact absurd (hxy ▸ hy) h

/-! ### The lowercase key map of line 106 -/

theorem pyDictInsert_fresh {m : List (String × String)} {key v : String}
    (h : ∀ q ∈ m, q.1 ≠ key) : pyDictInsert m key v = m ++ [(key, v)] := by
  unfold pyDictInsert
  rw [if_neg]
  intro hc
  rw [List.any_eq_true] at hc
  obtain ⟨q, hq, hbeq⟩ := hc
  exact h q hq (by simpa using hbeq)

theorem buildLowerMap_go_eq : ∀ (keys : List String) (acc : List (String × String)),
    (keys.map pyLowerStr).Nodup →
    (∀ k ∈ keys, ∀ q ∈ acc, q.1 ≠ pyLowerStr k) →
    keys.foldl (fun m k => pyDictInsert m (pyLowerStr k) k) acc
      = acc ++ keys.map (fun k => (pyLowerStr k, k))
  | [], acc, _, _ => by simp
  | k :: ks, acc, hn, hfresh => by
    rw [List.foldl_cons,
      pyDictInsert_fresh (fun q hq => hfresh k (List.mem_cons_self _ _) q hq)]
    have hn' : (ks.map pyLowerStr).Nodup := by
      rw [List.map_cons] at hn
      exact (List.nodup_cons.1 hn).2
    have hhead : pyLowerStr k ∉ ks.map pyLowerStr := by
      rw [List.map_cons] at hn
      exact (List.nodup_cons.1 hn).1
    have hfresh' : ∀ k' ∈ ks, ∀ q ∈ acc ++ [(pyLowerStr k, k)], q.1 ≠ pyLowerStr k' := by
      intro k' hk' q hq
      rcases List.mem_append.1 hq with hq | hq
      · exact hfresh k' (List.mem_cons_of_mem _ hk') q hq
      · rcases List.mem_singleton.1 hq with rfl
        intro heq
        apply hhead
        have : pyLowerStr k' ∈ ks.map pyLowerStr := List.mem_map_of_mem pyLowerStr hk'
        simpa [← heq] using this
    rw [buildLowerMap_go_eq ks (acc ++ [(pyLowerStr k, k)]) hn' hfresh']
    simp

theorem lookup_map_pair : ∀ (keys : List String) (l : String),
    List.lookup l (keys.map (fun k => (pyLowerStr k, k)))
      = keys.find? (fun k => pyLowerStr k == l)
  | [], _ => rfl
  | k :: ks, l => by
    rw [List.map_cons, List.lookup_cons, List.find?_cons]
    by_cases h : pyLowerStr k = l
    · simp [h]
    · simp only [beq_false_of_ne h, beq_false_of_ne (Ne.symm h)]
      exact lookup_map_pair ks l

theorem lookup_buildLowerMap (keys : List String) (hn : (keys.map pyLowerStr).Nodup)
    (l : String) :
    List.lookup l (buildLowerMap keys) = keys.find? (fun k => pyLowerStr k == l) := by
  rw [buildLowerMap, buildLowerMap_go_eq keys [] hn (by simp), List.nil_append,
    lookup_map_pair]

/-! ### The preferred-order pass against its spec description -/

theorem lower_map_eq (data : List (String × JVal)) :
    data.map (fun kv => pyLowerStr kv.1) = (data.map Prod.fst).map pyLowerStr := by
  rw [List.map_map]
  rfl

theorem keys_nodup_of_lower_nodup {data : List (String × JVal)}
    (H1 : (data.map (fun kv => pyLowerStr kv.1)).Nodup) : (data.map Prod.fst).Nodup := by
  rw [lower_map_eq] at H1
  exact List.Nodup.of_map _ H1

theorem prefPass_fst_mem (data : List (String × JVal)) (lowerMap : List (String × String)) :
    ∀ (pref used : List String) (x : String),
      x ∈ (prefPass data lowerMap pref used).1
        ↔ x ∈ (prefPass data lowerMap pref used).2.map Prod.fst ∨ x ∈ used
  | [], used, x => by simp [prefPass]
  | p :: ps, used, x => by
    simp only [prefPass]
    cases h : List.lookup (pyLowerStr p) lowerMap with
    | none => simpa using prefPass_fst_mem data lowerMap ps used x
    | some k =>
      by_cases hc : k ≠ "" ∧ k ∉ used ∧ keepGet (List.lookup k data) = true
      · simp only [if_pos hc]
        have := prefPass_fst_mem data lowerMap ps (k :: used) x
        simp only [List.mem_cons] at this
        simp only [List.map_cons, List.mem_cons, this]
        tauto
      · simp only [if_neg hc]
        simpa using prefPass_fst_mem data lowerMap ps used x

theorem prefPass_eq_spec (data : List (String × JVal))
    (H1 : (data.map (fun kv => pyLowerStr kv.1)).Nodup)
    (H2 : ∀ kv ∈ data, kv.1 ≠ "") :
    ∀ (pref used : List String),
      (prefPass data (buildLowerMap (data.map Prod.fst)) pref used).2
        = specPreferredPass pref (data.filter (fun kv => !(used.contains kv.1))) := by
  have hkn : (data.map Prod.fst).Nodup := keys_nodup_of_lower_nodup H1
  have hmapn : ((data.map Prod.fst).map pyLowerStr).Nodup := by
    rw [← lower_map_eq]
    exact H1
  intro pref
  induction pref with
  | nil => intro used; simp [prefPass, specPreferredPass]
  | cons p ps ih =>
    intro used
    simp only [prefPass, lookup_buildLowerMap _ hmapn]
    cases hf : (data.map Prod.fst).find? (fun k => pyLowerStr k == pyLowerStr p) with
    | none =>
      have hnone : (data.filter (fun kv => !(used.contains kv.1))).find?
          (fun kv => pyLowerStr kv.1 == pyLowerStr p && keepVal kv.2) = none := by
        rw [List.find?_eq_none] at hf ⊢
        intro kv hkv hpred
        rw [Bool.and_eq_true] at hpred
        exact hf kv.1 (List.mem_map_of_mem Prod.fst (List.mem_filter.1 hkv).1) hpred.1
      simp only [specPreferredPass, hnone]
      exact ih used
    | some k =>
      have hkmem : k ∈ data.map Prod.fst := List.mem_of_find?_eq_some hf
      have hklow : pyLowerStr k = pyLowerStr p := by simpa using List.find?_some hf
      obtain ⟨kv₀, hkv₀, hfst⟩ := List.mem_map.1 hkmem
      subst hfst
      have huniq : ∀ b ∈ data, pyLowerStr b.1 = pyLowerStr p → b = kv₀ := by
        intro b hb hlow
        apply pair_eq_of_fst_eq hkn hb hkv₀
        exact List.inj_on_of_nodup_map hmapn (List.mem_map_of_mem Prod.fst hb)
          (List.mem_map_of_mem Prod.fst hkv₀) (by rw [hlow, hklow])
      have hlookup : List.lookup kv₀.1 data = some kv₀.2 :=
        lookup_eq_some_of_mem hkn hkv₀
      have hne : kv₀.1 ≠ "" := H2 kv₀ hkv₀
      by_cases hused : kv₀.1 ∈ used
      · have hcond : ¬(kv₀.1 ≠ "" ∧ kv₀.1 ∉ used ∧
            keepGet (List.lookup kv₀.1 data) = true) := fun hc => hc.2.1 hused
        simp only [if_neg hcond]
        have hnone : (data.filter (fun kv => !(used.contains kv.1))).find?
            (fun kv => pyLowerStr kv.1 == pyLowerStr p && keepVal kv.2) = none := by
          rw [List.find?_eq_none]
          intro b hb hpred
          rw [Bool.and_eq_true] at hpred
          have hb' := List.mem_filter.1 hb
          have hbeq := huniq b hb'.1 (by simpa using hpred.1)
          apply (not_contains_iff used b.1).1 hb'.2
          rw [hbeq]
          exact hused
        simp only [specPreferredPass, hnone]
        exact ih used
      · by_cases hkeep : keepGet (List.lookup kv₀.1 data) = true
        · have hcond : kv₀.1 ≠ "" ∧ kv₀.1 ∉ used ∧
              keepGet (List.lookup kv₀.1 data) = true := ⟨hne, hused, hkeep⟩
          simp only [if_pos hcond]
          have hkeepv : keepVal kv₀.2 = true := by
            rw [hlookup] at hkeep
            exact hkeep
          have hsome : (data.filter (fun kv => !(used.contains kv.1))).find?
              (fun kv => pyLowerStr kv.1 == pyLowerStr p && keepVal kv.2) = some kv₀ := by
            apply find?_eq_some_of_unique
            · exact List.mem_filter.2 ⟨hkv₀, (not_contains_iff used kv₀.1).2 hused⟩
            · rw [Bool.and_eq_true]
              exact ⟨by simpa using hklow, hkeepv⟩
            · intro b hb hpred
              rw [Bool.and_eq_true] at hpred
              exact huniq b (List.mem_filter.1 hb).1 (by simpa using hpred.1)
          simp only [specPreferredPass, hsome]
          rw [hlookup]
          show kv₀ :: _ = kv₀ :: _
          congr 1
          rw [ih (kv₀.1 :: used)]
          congr 1
          rw [List.filter_filter]
          apply List.filter_congr
          intro kv _
          rw [List.contains_cons, Bool.not_or]
        · have hcond : ¬(kv₀.1 ≠ "" ∧ kv₀.1 ∉ used ∧
              keepGet (List.lookup kv₀.1 data) = true) := fun hc => hkeep hc.2.2
          simp only [if_neg hcond]
          have hnone : (data.filter (fun kv => !(used.contains kv.1))).find?
              (fun kv => pyLowerStr kv.1 == pyLowerStr p && keepVal kv.2) = none := by
            rw [List.find?_eq_none]
            intro b hb hpred
            rw [Bool.and_eq_true] at hpred
            have hbeq := huniq b (List.mem_filter.1 hb).1 (by simpa using hpred.1)
            rw [hlookup] at hkeep
            apply hkeep
            rw [← hbeq]
            exact hpred.2
          simp only [specPreferredPass, hnone]
          exact ih used

theorem specPreferredPass_mem : ∀ (pref : List String) (d : List (String × JVal))
    (kv : String × JVal), kv ∈ specPreferredPass pref d → kv ∈ d ∧ keepVal kv.2 = true
  | [], _, kv, h => by cases h
  | p :: ps, d, kv, h => by
    simp only [specPreferredPass] at h
    split at h
    · exact specPreferredPass_mem ps d kv h
    · next kv₁ heq =>
      rcases List.mem_cons.1 h with rfl | htail
      · refine ⟨List.mem_of_find?_eq_some heq, ?_⟩
        have := List.find?_some heq
        rw [Bool.and_eq_true] at this
        exact this.2
      · have := specPreferredPass_mem ps _ kv htail
        exact ⟨(List.mem_filter.1 this.1).1, this.2⟩

theorem specPreferredPass_keys_nodup : ∀ (pref : List String) (d : List (String × JVal)),
    ((specPreferredPass pref d).map Prod.fst).Nodup
  | [], _ => by simp [specPreferredPass]
  | p :: ps, d => by
    simp only [specPreferredPass]
    split
    · exact specPreferredPass_keys_nodup ps d
    · next kv₁ heq =>
      rw [List.map_cons, List.nodup_cons]
      refine ⟨?_, specPreferredPass_keys_nodup ps _⟩
      intro hmem
      obtain ⟨b, hb, hbfst⟩ := List.mem_map.1 hmem
      have hbf := (specPreferredPass_mem ps _ b hb).1
      have hb2 := (List.mem_filter.1 hbf).2
      rw [Bool.not_eq_true', beq_eq_false_iff_ne] at hb2
      exact hb2 hbfst

theorem contains_eq_true_iff_mem (l : List String) (x : String) :
    l.contains x = true ↔ x ∈ l := by
  rw [List.contains_iff_exists_mem_beq]
  constructor
  · rintro ⟨y, hy, hxy⟩
    rw [beq_iff_eq] at hxy
    exact hxy ▸ hy
  · intro hx
    exact ⟨x, hx, by simp⟩

/-- Structure of the orderer's output on a dict with pairwise
case-insensitively distinct, non-empty keys: the preferred pass exactly
as the spec words it, followed by the remaining non-empty fields as a
label-sorted permutation; every non-empty field appears, with no
duplicated keys. -/
theorem ordered_items_dict_spec (data : List (String × JVal)) (pref : List String)
    (H1 : (data.map (fun kv => pyLowerStr kv.1)).Nodup)
    (H2 : ∀ kv ∈ data, kv.1 ≠ "") :
    ∃ rest,
      _ordered_items_dict data pref = specPreferredPass pref data ++ rest
      ∧ rest.Pairwise labelLe
      ∧ rest.Perm (data.filter (fun kv =>
          !(((specPreferredPass pref data).map Prod.fst).contains kv.1) && keepVal kv.2))
      ∧ (∀ kv, kv ∈ _ordered_items_dict data pref ↔ kv ∈ data ∧ keepVal kv.2 = true)
      ∧ ((_ordered_items_dict data pref).map Prod.fst).Nodup := by
  have hpass := prefPass_eq_spec data H1 H2 pref []
  have hfilt : data.filter (fun kv => !(([] : List String).contains kv.1)) = data := by
    simp
  rw [hfilt] at hpass
  set M := specPreferredPass pref data with hM
  set q : String × JVal → Bool :=
    fun kv => !((M.map Prod.fst).contains kv.1) && keepVal kv.2 with hq
  have hused_eq : ∀ x, (prefPass data (buildLowerMap (data.map Prod.fst)) pref []).1.contains x
      = (M.map Prod.fst).contains x := by
    intro x
    rw [Bool.eq_iff_iff, contains_eq_true_iff_mem, contains_eq_true_iff_mem,
      prefPass_fst_mem, hpass]
    simp
  have hout : _ordered_items_dict data pref
      = M ++ List.insertionSort labelLe (data.filter q) := by
    simp only [_ordered_items_dict]
    rw [hpass]
    congr 1
    congr 1
    apply List.filter_congr
    intro kv _
    rw [hused_eq kv.1]
  have hSperm : (List.insertionSort labelLe (data.filter q)).Perm (data.filter q) :=
    List.perm_insertionSort labelLe (data.filter q)
  have hkn : (data.map Prod.fst).Nodup := keys_nodup_of_lower_nodup H1
  refine ⟨List.insertionSort labelLe (data.filter q), hout, ?_, hSperm, ?_, ?_⟩
  · exact List.sorted_insertionSort labelLe (data.filter q)
  · intro kv
    rw [hout, List.mem_append, hSperm.mem_iff, List.mem_filter]
    constructor
    · rintro (hm | ⟨hd, hqv⟩)
      · exact specPreferredPass_mem pref data kv hm
      · rw [hq, Bool.and_eq_true] at hqv
        exact ⟨hd, hqv.2⟩
    · rintro ⟨hd, hk⟩
      by_cases hmem : kv.1 ∈ M.map Prod.fst
      · left
        obtain ⟨b, hb, hbfst⟩ := List.mem_map.1 hmem
        have hbd := (specPreferredPass_mem pref data b hb).1
        have : kv = b := pair_eq_of_fst_eq hkn hd hbd hbfst.symm
        exact this ▸ hb
      · right
        refine ⟨hd, ?_⟩
        rw [hq, Bool.and_eq_true]
        refine ⟨?_, hk⟩
        rw [Bool.not_eq_true']
        cases hc : (M.map Prod.fst).contains kv.1
        · rfl
        · exact absurd ((contains_eq_true_iff_mem _ _).1 hc) hmem
  · rw [hout, List.map_append]
    apply List.Nodup.append
    · exact specPreferredPass_keys_nodup pref data
    · apply ((hSperm.map Prod.fst).nodup_iff).2
      exact List.Nodup.sublist ((List.filter_sublist data).map Prod.fst) hkn
    · intro x hxM hxS
      obtain ⟨b, hb, hbfst⟩ := List.mem_map.1 hxS
      have hbf := hSperm.mem_iff.1 hb
      have hb2 := (List.mem_filter.1 hbf).2
      rw [hq, Bool.and_eq_true, Bool.not_eq_true'] at hb2
      rw [← hbfst] at hxM
      have hc := (contains_eq_true_iff_mem (M.map Prod.fst) b.1).2 hxM
      rw [hc] at hb2
      cases hb2.1

/-! ### Determinism of the orderer under permutation of the input dict -/

theorem prefPass_perm_eq {d₁ d₂ : List (String × JVal)} (hp : d₁.Perm d₂)
    (H1 : (d₁.map (fun kv => pyLowerStr kv.1)).Nodup) :
    ∀ (pref used : List String),
      prefPass d₁ (buildLowerMap (d₁.map Prod.fst)) pref used
        = prefPass d₂ (buildLowerMap (d₂.map Prod.fst)) pref used := by
  have hmapn₁ : ((d₁.map Prod.fst).map pyLowerStr).Nodup := by
    rw [← lower_map_eq]
    exact H1
  have H1' : (d₂.map (fun kv => pyLowerStr kv.1)).Nodup := ((hp.map _).nodup_iff).1 H1
  have hmapn₂ : ((d₂.map Prod.fst).map pyLowerStr).Nodup := by
    rw [← lower_map_eq]
    exact H1'
  have hkn₁ : (d₁.map Prod.fst).Nodup := keys_nodup_of_lower_nodup H1
  have hkperm : (d₁.map Prod.fst).Perm (d₂.map Prod.fst) := hp.map Prod.fst
  have hfind : ∀ p : String,
      (d₁.map Prod.fst).find? (fun k => pyLowerStr k == pyLowerStr p)
        = (d₂.map Prod.fst).find? (fun k => pyLowerStr k == pyLowerStr p) := by
    intro p
    apply find?_eq_of_perm_unique hkperm
    intro a ha b hb hpa hpb
    rw [beq_iff_eq] at hpa hpb
    exact List.inj_on_of_nodup_map hmapn₁ ha hb (by rw [hpa, hpb])
  have hlook : ∀ k, List.lookup k d₁ = List.lookup k d₂ :=
    lookup_eq_of_perm_nodup hp hkn₁
  intro pref
  induction pref with
  | nil => intro used; simp [prefPass]
  | cons p ps ih =>
    intro used
    simp only [prefPass, lookup_buildLowerMap _ hmapn₁, lookup_buildLowerMap _ hmapn₂,
      hfind p, hlook]
    cases hf : (d₂.map Prod.fst).find? (fun k => pyLowerStr k == pyLowerStr p) with
    | none => exact ih used
    | some k =>
      by_cases hc : k ≠ "" ∧ k ∉ used ∧ keepGet (List.lookup k d₂) = true
      · simp only [if_pos hc, ih (k :: used)]
      · simp only [if_neg hc]
        exact ih used

theorem insertionSort_eq_of_perm {r₁ r₂ : List (String × JVal)} (hp : r₁.Perm r₂)
    (hlab : r₁.Pairwise (fun a b => _pretty_label a.1 ≠ _pretty_label b.1)) :
    List.insertionSort labelLe r₁ = List.insertionSort labelLe r₂ := by
  have hs₁ := List.sorted_insertionSort labelLe r₁
  have hs₂ := List.sorted_insertionSort labelLe r₂
  have hp₁ := List.perm_insertionSort labelLe r₁
  have hp₂ := List.perm_insertionSort labelLe r₂
  have hperm : (List.insertionSort labelLe r₁).Perm (List.insertionSort labelLe r₂) :=
    hp₁.trans (hp.trans hp₂.symm)
  refine List.Perm.eq_of_sorted ?_ hs₁ hs₂ hperm
  intro a b ha hb hab hba
  have hlabeq : _pretty_label a.1 = _pretty_label b.1 := labelLe_antisymm hab hba
  have ha' : a ∈ r₁ := hp₁.mem_iff.1 ha
  have hb' : b ∈ r₁ := hp.mem_iff.2 (hp₂.mem_iff.1 hb)
  by_contra hne
  have hsym : Symmetric (fun (a b : String × JVal) =>
      _pretty_label a.1 ≠ _pretty_label b.1) := by
    intro x y hxy heq
    exact hxy heq.symm
  exact hlab.forall hsym ha' hb' hne hlabeq

theorem ordered_items_dict_perm_eq {d₁ d₂ : List (String × JVal)} (hp : d₁.Perm d₂)
    (H1 : (d₁.map (fun kv => pyLowerStr kv.1)).Nodup)
    (H3 : d₁.Pairwise (fun a b => _pretty_label a.1 ≠ _pretty_label b.1))
    (pref : List String) :
    _ordered_items_dict d₁ pref = _ordered_items_dict d₂ pref := by
  simp only [_ordered_items_dict]
  rw [← prefPass_perm_eq hp H1 pref []]
  congr 1
  apply insertionSort_eq_of_perm
  · exact hp.filter _
  · exact List.Pairwise.sublist (List.filter_sublist d₁) H3

/-! ### The acronym table under case variations -/

theorem toLower_of_space {c : Char} (h : isPySpace c = true) : Char.toLower c = c := by
  unfold Char.toLower
  rw [if_neg]
  intro hc
  unfold isPySpace at h
  simp only [Bool.or_eq_true, Bool.and_eq_true, beq_iff_eq, decide_eq_true_eq] at h
  omega

theorem pyStripL_eq_self {l : List Char} (h : ∀ c ∈ l, isPySpace c = false) :
    pyStripL l = l := by
  have hdrop : ∀ m : List Char, (∀ c ∈ m, isPySpace c = false) →
      m.dropWhile isPySpace = m := by
    intro m hm
    cases m with
    | nil => rfl
    | cons c rest =>
      rw [List.dropWhile_cons, if_neg]
      rw [hm c (List.mem_cons_self _ _)]
      simp
  unfold pyStripL
  rw [hdrop l h, hdrop l.reverse (fun c hc => h c (List.mem_reverse.1 hc)),
    List.reverse_reverse]

/-- Case-insensitive hit in the `fixes` table: any string whose
character-wise lowercasing agrees with a table key's resolves to that
key's value, with no further processing. -/
theorem pretty_label_fixes {k v : String} (hkv : (k, v) ∈ fixes) {c : String}
    (hmap : c.data.map Char.toLower = k.data.map Char.toLower) :
    _pretty_label c = v := by
  have htab : ∀ kv ∈ fixes, (∀ ch ∈ kv.1.data, isPySpace (Char.toLower ch) = false)
      ∧ kv.1.data ≠ [] ∧ List.lookup (pyLowerStr kv.1) fixes = some kv.2 := by decide
  obtain ⟨hspace, hne, hlook⟩ := htab (k, v) hkv
  have hcspace : ∀ ch ∈ c.data, isPySpace ch = false := by
    intro ch hch
    have hmem : Char.toLower ch ∈ k.data.map Char.toLower := by
      rw [← hmap]
      exact List.mem_map_of_mem _ hch
    obtain ⟨ch', hch', heq⟩ := List.mem_map.1 hmem
    have hl : isPySpace (Char.toLower ch) = false := by
      rw [← heq]
      exact hspace ch' hch'
    cases hsp : isPySpace ch
    · rfl
    · rw [toLower_of_space hsp, hsp] at hl
      cases hl
  have hstrip : pyStripL c.data = c.data := pyStripL_eq_self hcspace
  have hcne : c ≠ "" := by
    intro hc
    subst hc
    exact hne (by simpa using hmap.symm)
  simp only [_pretty_label, if_neg hcne, hstrip, hmap]
  have hmk : String.mk (k.data.map Char.toLower) = pyLowerStr k := rfl
  rw [hmk, hlook]

/-! ### Composer inversion helpers -/

theorem exc_bind_ok {α β : Type} (a : α) (f : α → Except String β) :
    (Except.ok a >>= f) = f a := rfl

theorem exc_bind_err {α β : Type} (e : String) (f : α → Except String β) :
    ((Except.error e : Except String α) >>= f) = Except.error e := rfl

theorem exc_map_ok {α β : Type} (g : α → β) (a : α) :
    (g <$> (Except.ok a : Except String α)) = Except.ok (g a) := rfl

theorem exc_map_err {α β : Type} (g : α → β) (e : String) :
    (g <$> (Except.error e : Except String α)) = (Except.error e : Except String β) := rfl

theorem exc_pure {α : Type} (a : α) : (pure a : Except String α) = Except.ok a := rfl

theorem append_pdf_ne_empty (s : String) : s ++ ".pdf" ≠ "" := by
  intro h
  have hd := congrArg String.data h
  rw [String.data_append] at hd
  cases hx : s.data with
  | nil => rw [hx] at hd; cases hd
  | cons a t => rw [hx] at hd; cases hd

/-- Output path of the composer when it derives the filename itself
(`filename=None`): join of the output directory with the sanitized
case id plus the `.pdf` extension. -/
theorem case_to_pdf_path_derived {case_data : JVal} {d p : String} {story : List Block}
    {civ : JVal} {s : String}
    (hg : pyGet case_data "case_id" (.str "case") = Except.ok civ)
    (hsan : sanitizeF civ = Except.ok s)
    (h : case_to_pdf case_data d none = Except.ok (p, story)) :
    p = osPathJoin d (s ++ ".pdf") := by
  simp only [case_to_pdf, hg, exc_bind_ok, Option.getD_none, if_true] at h
  rw [hsan, exc_map_ok, exc_bind_ok] at h
  cases hS : composeStory case_data civ with
  | error e => rw [hS, exc_bind_err] at h; cases h
  | ok st =>
    rw [hS, exc_bind_ok] at h
    have h2 : (osPathJoin d (s ++ ".pdf"), st) = (p, story) := Except.ok.inj h
    exact (congrArg Prod.fst h2).symm

/-- Output path of the composer when a non-empty filename is supplied. -/
theorem case_to_pdf_path_given {case_data : JVal} {d fn p : String} {story : List Block}
    (hfn : fn ≠ "") (h : case_to_pdf case_data d (some fn) = Except.ok (p, story)) :
    p = osPathJoin d fn := by
  cases hg : pyGet case_data "case_id" (.str "case") with
  | error e => rw [case_to_pdf, hg, exc_bind_err] at h; cases h
  | ok civ =>
    simp only [case_to_pdf, hg, exc_bind_ok, Option.getD_some, if_neg hfn] at h
    rw [exc_pure, exc_bind_ok] at h
    cases hS : composeStory case_data civ with
    | error e => rw [hS, exc_bind_err] at h; cases h
    | ok st =>
      rw [hS, exc_bind_ok] at h
      have h2 : (osPathJoin d fn, st) = (p, story) := Except.ok.inj h
      exact (congrArg Prod.fst h2).symm

/-- Story of a successful composition: whatever the filename logic did,
the story is the one `composeStory` produced for the resolved case id. -/
theorem case_to_pdf_story {case_data : JVal} {d p : String} {story : List Block}
    {fn? : Option String}
    (h : case_to_pdf case_data d fn? = Except.ok (p, story)) :
    ∃ civ, pyGet case_data "case_id" (.str "case") = Except.ok civ
      ∧ composeStory case_data civ = Except.ok story := by
  cases hg : pyGet case_data "case_id" (.str "case") with
  | error e => rw [case_to_pdf, hg, exc_bind_err] at h; cases h
  | ok civ =>
    refine ⟨civ, rfl, ?_⟩
    simp only [case_to_pdf, hg, exc_bind_ok] at h
    by_cases hcond : fn?.getD "" = ""
    · rw [if_pos hcond] at h
      cases hsan : sanitizeF civ with
      | error e => rw [hsan, exc_map_err, exc_bind_err] at h; cases h
      | ok safe =>
        rw [hsan, exc_map_ok, exc_bind_ok] at h
        cases hS : composeStory case_data civ with
        | error e => rw [hS, exc_bind_err] at h; cases h
        | ok st =>
          rw [hS, exc_bind_ok] at h
          have h2 : (osPathJoin d (safe ++ ".pdf"), st) = (p, story) := Except.ok.inj h
          injection h2 with h3 h4
          rw [h4]
    · rw [if_neg hcond, exc_pure, exc_bind_ok] at h
      cases hS : composeStory case_data civ with
      | error e => rw [hS, exc_bind_err] at h; cases h
      | ok st =>
        rw [hS, exc_bind_ok] at h
        have h2 : (osPathJoin d (fn?.getD ""), st) = (p, story) := Except.ok.inj h
        injection h2 with h3 h4
        rw [h4]

/-- Shape of `composeStory` once the `case_data` sub-object resolves to a
dict `cd` (covers the present-dict, absent, and null cases, where `cd` is
`[]` for the latter two): only the topic label can still fail, and the
story is `buildStory` of the resolved values. -/
theorem composeStory_shape (fields : List (String × JVal)) (caseIdV : JVal)
    {cd : List (String × JVal)}
    (hc : (if pyTruthy ((List.lookup "case_data" fields).getD (.obj []))
        then (List.lookup "case_data" fields).getD (.obj []) else .obj []) = JVal.obj cd) :
    composeStory (.obj fields) caseIdV
      = (prettyLabelAny ((List.lookup "topic" fields).getD (.str ""))) >>= (fun topicLabel =>
          Except.ok (buildStory caseIdV ((List.lookup "topic" fields).getD (.str "")) topicLabel
            (if pyTruthy ((List.lookup "clinical_data" cd).getD (.obj []))
              then (List.lookup "clinical_data" cd).getD (.obj []) else .obj [])
            (if pyTruthy ((List.lookup "imaging" cd).getD (.obj []))
              then (List.lookup "imaging" cd).getD (.obj []) else .obj [])
            ((List.lookup "demographics" cd).getD (.str ""))
            ((List.lookup "chief_complaint" cd).getD (.str ""))
            ((List.lookup "ocular_history" cd).getD (.str ""))
            ((List.lookup "medical_history" cd).getD (.str ""))
            ((List.lookup "family_history" cd).getD JVal.null)
            ((List.lookup "family_history" cd).getD (.str "")))) := by
  simp only [composeStory, pyGet, hc, exc_bind_ok, exc_pure]

theorem lookup_filter_ne {l : List (String × JVal)} {k k' : String} (h : k ≠ k') :
    List.lookup k (l.filter (fun kv => !(kv.1 == k'))) = List.lookup k l := by
  induction l with
  | nil => rfl
  | cons a t ih =>
    obtain ⟨a1, a2⟩ := a
    rw [List.filter_cons]
    by_cases ha : a1 = k'
    · subst ha
      simp only [beq_self_eq_true, Bool.not_true, Bool.false_eq_true, if_false]
      rw [ih, List.lookup_cons, beq_false_of_ne h]
    · simp only [beq_false_of_ne ha, Bool.not_false, if_true]
      rw [List.lookup_cons, List.lookup_cons]
      cases hk : (k == a1)
      · exact ih
      · rfl

theorem lookup_filter_self (l : List (String × JVal)) (k' : String) :
    List.lookup k' (l.filter (fun kv => !(kv.1 == k'))) = none := by
  induction l with
  | nil => rfl
  | cons a t ih =>
    obtain ⟨a1, a2⟩ := a
    rw [List.filter_cons]
    by_cases ha : a1 = k'
    · subst ha
      simp only [beq_self_eq_true, Bool.not_true, Bool.false_eq_true, if_false]
      exact ih
    · simp only [beq_false_of_ne ha, Bool.not_false, if_true]
      rw [List.lookup_cons, beq_false_of_ne (fun he => ha he.symm)]
      exact ih

/-- A null `case_data` behaves exactly like an absent one: dropping the
entry from the record leaves the composer's result unchanged. -/
theorem case_data_null_eq_absent (fields : List (String × JVal)) (d : String)
    (fn? : Option String)
    (hnull : List.lookup "case_data" fields = some JVal.null) :
    case_to_pdf (.obj fields) d fn?
      = case_to_pdf (.obj (fields.filter (fun kv => !(kv.1 == "case_data")))) d fn? := by
  have hid := @lookup_filter_ne fields "case_id" "case_data" (by decide)
  have htp := @lookup_filter_ne fields "topic" "case_data" (by decide)
  have hcd := lookup_filter_self fields "case_data"
  simp only [case_to_pdf, composeStory, pyGet, hnull, hcd, hid, htp, Option.getD_some,
    Option.getD_none]
  rfl

/-- Tolerance of the composer: with a case id that is absent or a
string, a topic that is absent, null, or a string, and a `case_data`
that is absent, null, or a dict, composition succeeds. -/
theorem case_to_pdf_ok_of_shapes (fields : List (String × JVal)) (d : String)
    (hcid : List.lookup "case_id" fields = none
      ∨ ∃ s, List.lookup "case_id" fields = some (JVal.str s))
    (htop : List.lookup "topic" fields = none
      ∨ List.lookup "topic" fields = some JVal.null
      ∨ ∃ s, List.lookup "topic" fields = some (JVal.str s))
    (hcd : List.lookup "case_data" fields = none
      ∨ List.lookup "case_data" fields = some JVal.null
      ∨ ∃ cd, List.lookup "case_data" fields = some (JVal.obj cd)) :
    ∃ p story, case_to_pdf (.obj fields) d none = Except.ok (p, story) := by
  have hciv : ∃ s₀, (List.lookup "case_id" fields).getD (JVal.str "case") = JVal.str s₀ := by
    rcases hcid with h | ⟨s, h⟩
    · exact ⟨"case", by rw [h]; rfl⟩
    · exact ⟨s, by rw [h]; rfl⟩
  obtain ⟨s₀, hs₀⟩ := hciv
  have hcd' : ∃ cd, (if pyTruthy ((List.lookup "case_data" fields).getD (.obj []))
      then (List.lookup "case_data" fields).getD (.obj []) else .obj []) = JVal.obj cd := by
    rcases hcd with h | h | ⟨cd, h⟩
    · exact ⟨[], by rw [h]; rfl⟩
    · exact ⟨[], by rw [h]; rfl⟩
    · cases cd with
      | nil => exact ⟨[], by rw [h]; rfl⟩
      | cons a t => exact ⟨a :: t, by rw [h]; rfl⟩
  obtain ⟨cd, hcd''⟩ := hcd'
  have htop' : ∃ tl, prettyLabelAny ((List.lookup "topic" fields).getD (JVal.str "")) =
      Except.ok tl := by
    rcases htop with h | h | ⟨s, h⟩
    · exact ⟨_, by rw [h]; rfl⟩
    · exact ⟨"", by rw [h]; rfl⟩
    · exact ⟨_, by rw [h]; rfl⟩
  obtain ⟨tl, htl⟩ := htop'
  suffices hsuff : ∃ r, case_to_pdf (.obj fields) d none = Except.ok r by
    obtain ⟨⟨p, story⟩, hr⟩ := hsuff
    exact ⟨p, story, hr⟩
  simp only [case_to_pdf, pyGet, hs₀, exc_bind_ok, Option.getD_none, if_true, sanitizeF,
    exc_map_ok, exc_bind_ok]
  rw [composeStory_shape fields (JVal.str s₀) hcd'', htl, exc_bind_ok, exc_bind_ok, exc_pure]
  exact ⟨_, rfl⟩

/-- Paths produced by the batch driver on a two-record batch whose
records carry string case ids. -/
theorem batch_two_paths {f1 f2 : List (String × JVal)} {id1 id2 d : String}
    {ps : List String}
    (h1 : List.lookup "case_id" f1 = some (JVal.str id1))
    (h2 : List.lookup "case_id" f2 = some (JVal.str id2))
    (h : batch_from_json (.list [.obj f1, .obj f2]) d = Except.ok ps) :
    ps = [osPathJoin d (pySanitize id1 ++ ".pdf"), osPathJoin d (pySanitize id2 ++ ".pdf")] := by
  simp only [batch_from_json, batch_go, pyGet, h1, h2, Option.getD_some, sanitizeF,
    exc_bind_ok] at h
  cases hc1 : case_to_pdf (.obj f1) d (some (pySanitize id1 ++ ".pdf")) with
  | error e => rw [hc1, exc_bind_err] at h; cases h
  | ok r1 =>
    rw [hc1, exc_bind_ok] at h
    cases hc2 : case_to_pdf (.obj f2) d (some (pySanitize id2 ++ ".pdf")) with
    | error e => rw [hc2, exc_bind_err] at h; cases h
    | ok r2 =>
      rw [hc2, exc_bind_ok] at h
      have hp1 : r1.1 = osPathJoin d (pySanitize id1 ++ ".pdf") :=
        case_to_pdf_path_given (append_pdf_ne_empty _) hc1
      have hp2 : r2.1 = osPathJoin d (pySanitize id2 ++ ".pdf") :=
        case_to_pdf_path_given (append_pdf_ne_empty _) hc2
      have hps : [r1.1, r2.1] = ps := Except.ok.inj h
      rw [← hps, hp1, hp2]

/-- No `_p`-style labeled line occurs in a clinical-data or imaging
section: those sections only hold a spacer, a block label and field
lines. -/
theorem labeled_not_mem_sectionBlocks (lab t title : String) (v : JVal)
    (pref : List String) : Block.labeled lab t ∉ sectionBlocks title v pref := by
  unfold sectionBlocks
  cases v <;> simp

/-- The history lines of a composed story: the four fixed labeled lines
are always present with the resolved values, and a family-history line
occurs exactly when the family-history gate value is truthy. -/
theorem buildStory_history (caseIdV topicV : JVal) (topicLabel : String)
    (clinical imaging demV ccV ohV mhV fhGate fhV : JVal) {story : List Block}
    (hst : story = buildStory caseIdV topicV topicLabel clinical imaging demV ccV ohV
      mhV fhGate fhV) :
    Block.labeled "Demographics" (pyStr demV) ∈ story
    ∧ Block.labeled "Chief Complaint" (pyStr ccV) ∈ story
    ∧ Block.labeled "Ocular History" (pyStr ohV) ∈ story
    ∧ Block.labeled "Medical History" (pyStr mhV) ∈ story
    ∧ (∀ t, Block.labeled "Family History" t ∈ story
        ↔ (pyTruthy fhGate = true ∧ t = pyStr fhV)) := by
  subst hst
  have hsec₁ := fun t => labeled_not_mem_sectionBlocks "Family History" t "Clinical Data:"
    clinical CLINICAL_PREFERRED_ORDER
  have hsec₂ := fun t => labeled_not_mem_sectionBlocks "Family History" t "Imaging:"
    imaging IMAGING_PREFERRED_ORDER
  refine ⟨?_, ?_, ?_, ?_, ?_⟩
  · simp [buildStory]
  · simp [buildStory]
  · simp [buildStory]
  · simp [buildStory]
  · intro t
    by_cases hf : pyTruthy fhGate <;>
      simp [buildStory, hf, List.mem_append, hsec₁ t, hsec₂ t]

/-! ### Claims -/

/-- Claim C1, counterexample.  As universally stated ("for every fields
mapping and every preferred-order list ... first the keys that
case-insensitively match a preferred-order entry"), the claim fails: with
the keys `Fundus`, `fundus` and `apple` and preferred order `[fundus]`,
only the later case-colliding key is emitted in the preferred section;
the other one sorts behind `apple`, so a preferred-matching key follows a
non-matching one. -/
theorem c1_matched_first_counterexample :
    ¬ matchedFirstClaim
      [("Fundus", JVal.str "a"), ("fundus", JVal.str "b"), ("apple", JVal.str "c")]
      ["fundus"] := by
  unfold matchedFirstClaim
  decide

/-- Claim C1 (amended: for fields mappings whose keys are non-empty and
pairwise distinct after lowercasing).  The orderer returns exactly the
(key, value) pairs whose values are neither null nor the empty string,
each exactly once: first the preferred-order pass exactly as the spec
words it (`specPreferredPass`), then the remaining such pairs sorted
ascending by normalized display label. -/
theorem c1_ordered_items_characterization
    (data : List (String × JVal)) (pref : List String)
    (H1 : (data.map (fun kv => pyLowerStr kv.1)).Nodup)
    (H2 : ∀ kv ∈ data, kv.1 ≠ "") :
    ∃ rest,
      _ordered_items_dict data pref = specPreferredPass pref data ++ rest
      ∧ rest.Pairwise labelLe
      ∧ rest.Perm (data.filter (fun kv =>
          !(((specPreferredPass pref data).map Prod.fst).contains kv.1) && keepVal kv.2))
      ∧ (∀ kv, kv ∈ _ordered_items_dict data pref ↔ kv ∈ data ∧ keepVal kv.2 = true)
      ∧ ((_ordered_items_dict data pref).map Prod.fst).Nodup :=
  ordered_items_dict_spec data pref H1 H2

/-- Claim C1, witness: the characterization applied to a concrete
mapping with preferred and non-preferred keys and an empty value. -/
theorem c1_witness :
    (((([("pupils", JVal.str "y"), ("custom_b", JVal.str "x"),
        ("custom_a", JVal.str "z"), ("skip", JVal.str "")] : List (String × JVal)).map
          (fun kv => pyLowerStr kv.1)).Nodup)
      ∧ (∀ kv ∈ ([("pupils", JVal.str "y"), ("custom_b", JVal.str "x"),
          ("custom_a", JVal.str "z"), ("skip", JVal.str "")] : List (String × JVal)),
          kv.1 ≠ ""))
    ∧ ∃ rest,
        _ordered_items_dict [("pupils", JVal.str "y"), ("custom_b", JVal.str "x"),
            ("custom_a", JVal.str "z"), ("skip", JVal.str "")] CLINICAL_PREFERRED_ORDER
          = specPreferredPass CLINICAL_PREFERRED_ORDER
              [("pupils", JVal.str "y"), ("custom_b", JVal.str "x"),
                ("custom_a", JVal.str "z"), ("skip", JVal.str "")] ++ rest
        ∧ rest.Pairwise labelLe
        ∧ rest.Perm ([("pupils", JVal.str "y"), ("custom_b", JVal.str "x"),
            ("custom_a", JVal.str "z"), ("skip", JVal.str "")].filter (fun kv =>
            !(((specPreferredPass CLINICAL_PREFERRED_ORDER
                [("pupils", JVal.str "y"), ("custom_b", JVal.str "x"),
                  ("custom_a", JVal.str "z"), ("skip", JVal.str "")]).map
                Prod.fst).contains kv.1) && keepVal kv.2))
        ∧ (∀ kv, kv ∈ _ordered_items_dict [("pupils", JVal.str "y"),
            ("custom_b", JVal.str "x"), ("custom_a", JVal.str "z"),
            ("skip", JVal.str "")] CLINICAL_PREFERRED_ORDER
            ↔ kv ∈ ([("pupils", JVal.str "y"), ("custom_b", JVal.str "x"),
                ("custom_a", JVal.str "z"), ("skip", JVal.str "")] : List (String × JVal))
              ∧ keepVal kv.2 = true)
        ∧ ((_ordered_items_dict [("pupils", JVal.str "y"), ("custom_b", JVal.str "x"),
            ("custom_a", JVal.str "z"), ("skip", JVal.str "")]
            CLINICAL_PREFERRED_ORDER).map Prod.fst).Nodup :=
  ⟨⟨by decide, by decide⟩,
    c1_ordered_items_characterization _ CLINICAL_PREFERRED_ORDER (by decide) (by decide)⟩

/-- Claim C2, counterexample: the label produced for
`tear_breakup_time` does not contain the exact substring
"Tear break-up time" (the final `.title()` call recapitalizes it). -/
theorem c2_substring_counterexample :
    ¬ (containsSub "Tear break-up time".data
        (_pretty_label "tear_breakup_time").data = true) := by decide

/-- Claim C2 (amended): `normalize("tear_breakup_time")` returns exactly
"Tear Break-Up Time" — the phrase substitution survives as the hyphen
(a generic title-case rendering of the key would be
"Tear Breakup Time"), but its casing is re-mangled by title-casing. -/
theorem c2_tear_breakup_label :
    _pretty_label "tear_breakup_time" = "Tear Break-Up Time"
    ∧ containsSub "Tear Break-Up Time".data
        (_pretty_label "tear_breakup_time").data = true := by
  constructor
  · rfl
  · decide

/-- Claim C3, counterexample: two mappings with the same key-value pairs
but different insertion order whose keys have equal normalized labels
("custom a" and "custom_a" both normalize to "Custom A"): the stable sort
keeps insertion order among ties, so the outputs differ. -/
theorem c3_order_counterexample :
    ([("custom a", JVal.str "x"), ("custom_a", JVal.str "y")] : List (String × JVal)).Perm
      [("custom_a", JVal.str "y"), ("custom a", JVal.str "x")]
    ∧ _ordered_items_dict [("custom a", JVal.str "x"), ("custom_a", JVal.str "y")]
        CLINICAL_PREFERRED_ORDER
      ≠ _ordered_items_dict [("custom_a", JVal.str "y"), ("custom a", JVal.str "x")]
        CLINICAL_PREFERRED_ORDER := by
  constructor
  · exact List.Perm.swap _ _ _
  · intro h
    have := congrArg (List.map Prod.fst) h
    revert this
    decide

/-- Claim C3 (amended: for mappings whose keys are pairwise distinct
after lowercasing and have pairwise distinct normalized labels).  Two
input mappings with the same key-value pairs produce the identical
output sequence, whatever their insertion order. -/
theorem c3_order_deterministic {d₁ d₂ : List (String × JVal)} (hp : d₁.Perm d₂)
    (H1 : (d₁.map (fun kv => pyLowerStr kv.1)).Nodup)
    (H3 : d₁.Pairwise (fun a b => _pretty_label a.1 ≠ _pretty_label b.1))
    (pref : List String) :
    _ordered_items_dict d₁ pref = _ordered_items_dict d₂ pref :=
  ordered_items_dict_perm_eq hp H1 H3 pref

/-- Claim C3, witness: the spec's own example, in both insertion
orders. -/
theorem c3_witness :
    (([("fundus", JVal.str "x"), ("pupils", JVal.str "y")] : List (String × JVal)).Perm
      [("pupils", JVal.str "y"), ("fundus", JVal.str "x")])
    ∧ _ordered_items_dict [("fundus", JVal.str "x"), ("pupils", JVal.str "y")]
        CLINICAL_PREFERRED_ORDER
      = _ordered_items_dict [("pupils", JVal.str "y"), ("fundus", JVal.str "x")]
        CLINICAL_PREFERRED_ORDER :=
  ⟨List.Perm.swap _ _ _,
    c3_order_deterministic (List.Perm.swap _ _ _) (by decide) (by decide)
      CLINICAL_PREFERRED_ORDER⟩

/-- Claim C4: for every key of the acronym table and every input casing
of it (a string whose character-wise lowercasing agrees with the key's),
the normalizer returns exactly the table's mapped value. -/
theorem c4_acronym_casings {k v : String} (hkv : (k, v) ∈ fixes) {c : String}
    (hmap : c.data.map Char.toLower = k.data.map Char.toLower) :
    _pretty_label c = v :=
  pretty_label_fixes hkv hmap

/-- Claim C4, witness: the casing "IoP" of the table key "iop". -/
theorem c4_witness :
    (("iop", "IOP") ∈ fixes)
    ∧ ("IoP".data.map Char.toLower = "iop".data.map Char.toLower)
    ∧ _pretty_label "IoP" = "IOP" :=
  ⟨by decide, by decide, @c4_acronym_casings "iop" "IOP" (by decide) "IoP" (by decide)⟩

/-- Claim C5: for every record whose `case_id` is the string `s`, the
composer (deriving its own filename) writes to
`out_dir/<sanitized s>.pdf`, where sanitization replaces every character
that is not alphanumeric, `_`, or `-` with `_`; in particular
"A/B 1" yields "A_B_1.pdf". -/
theorem c5_filename_sanitization :
    (∀ (fields : List (String × JVal)) (s dir p : String) (story : List Block),
      List.lookup "case_id" fields = some (JVal.str s) →
      case_to_pdf (.obj fields) dir none = Except.ok (p, story) →
      p = osPathJoin dir (pySanitize s ++ ".pdf"))
    ∧ pySanitize "A/B 1" ++ ".pdf" = "A_B_1.pdf" := by
  constructor
  · intro fields s dir p story hl h
    have hg : pyGet (.obj fields) "case_id" (.str "case") = Except.ok (JVal.str s) := by
      simp [pyGet, hl]
    have hsan : sanitizeF (JVal.str s) = Except.ok (pySanitize s) := rfl
    exact case_to_pdf_path_derived hg hsan h
  · rfl

/-- Claim C5, witness: a concrete record with `case_id = "A/B 1"`. -/
theorem c5_witness :
    ∃ pr, case_to_pdf (.obj [("case_id", JVal.str "A/B 1")]) "out" none = Except.ok pr
      ∧ pr.1 = osPathJoin "out" (pySanitize "A/B 1" ++ ".pdf")
      ∧ pr.1 = "out/A_B_1.pdf" := by
  obtain ⟨pr, hpr⟩ : ∃ pr, case_to_pdf (.obj [("case_id", JVal.str "A/B 1")]) "out" none
      = Except.ok pr := ⟨_, rfl⟩
  have hp := c5_filename_sanitization.1 [("case_id", JVal.str "A/B 1")] "A/B 1" "out"
    pr.1 pr.2 rfl (by rw [← hpr])
  exact ⟨pr, hpr, hp, by rw [hp]; rfl⟩

/-- Claim C6: for every record that supplies no case identifier (no
`case_id` key), the composer derives the output filename from the
literal fallback identifier "case", yielding `case.pdf`. -/
theorem c6_fallback_filename :
    ∀ (fields : List (String × JVal)) (dir p : String) (story : List Block),
      List.lookup "case_id" fields = none →
      case_to_pdf (.obj fields) dir none = Except.ok (p, story) →
      p = osPathJoin dir "case.pdf" := by
  intro fields dir p story hl h
  have hg : pyGet (.obj fields) "case_id" (.str "case") = Except.ok (JVal.str "case") := by
    simp [pyGet, hl]
  have hsan : sanitizeF (JVal.str "case") = Except.ok "case" := rfl
  rw [case_to_pdf_path_derived hg hsan h]
  rfl

/-- Claim C6, witness: a record with no `case_id` key at all. -/
theorem c6_witness :
    List.lookup "case_id" ([] : List (String × JVal)) = none
    ∧ ∃ pr, case_to_pdf (.obj []) "out" none = Except.ok pr
        ∧ pr.1 = osPathJoin "out" "case.pdf" := by
  refine ⟨rfl, ?_⟩
  obtain ⟨pr, hpr⟩ : ∃ pr, case_to_pdf (.obj []) "out" none = Except.ok pr := ⟨_, rfl⟩
  exact ⟨pr, hpr, c6_fallback_filename [] "out" pr.1 pr.2 rfl (by rw [← hpr])⟩

/-- Claim C7: whenever composition succeeds, the story contains the four
labeled history lines with the record's values verbatim (empty string
when the field is absent), and a family-history line exactly when
`family_history` is present as a non-empty string.  `cd` is the record's
effective case body: the `case_data` sub-object when truthy, the empty
mapping otherwise. -/
theorem c7_history_lines :
    ∀ (fields cd : List (String × JVal)) (dir : String) (fn? : Option String)
      (p : String) (story : List Block) (dem cc oh mh : String),
      case_to_pdf (.obj fields) dir fn? = Except.ok (p, story) →
      (if pyTruthy ((List.lookup "case_data" fields).getD (.obj []))
        then (List.lookup "case_data" fields).getD (.obj []) else .obj []) = JVal.obj cd →
      (List.lookup "demographics" cd).getD (.str "") = JVal.str dem →
      (List.lookup "chief_complaint" cd).getD (.str "") = JVal.str cc →
      (List.lookup "ocular_history" cd).getD (.str "") = JVal.str oh →
      (List.lookup "medical_history" cd).getD (.str "") = JVal.str mh →
      (List.lookup "family_history" cd = none
        ∨ ∃ s, List.lookup "family_history" cd = some (JVal.str s)) →
      Block.labeled "Demographics" dem ∈ story
      ∧ Block.labeled "Chief Complaint" cc ∈ story
      ∧ Block.labeled "Ocular History" oh ∈ story
      ∧ Block.labeled "Medical History" mh ∈ story
      ∧ (∀ t, Block.labeled "Family History" t ∈ story
          ↔ ∃ s, List.lookup "family_history" cd = some (JVal.str s) ∧ s ≠ "" ∧ t = s) := by
  intro fields cd dir fn? p story dem cc oh mh h hc hdem hcc hoh hmh hfh
  obtain ⟨civ, hciv, hS⟩ := case_to_pdf_story h
  rw [composeStory_shape fields civ hc] at hS
  cases htl : prettyLabelAny ((List.lookup "topic" fields).getD (JVal.str "")) with
  | error e => rw [htl, exc_bind_err] at hS; cases hS
  | ok tl =>
    rw [htl, exc_bind_ok] at hS
    have hst := (Except.ok.inj hS).symm
    obtain ⟨h1, h2, h3, h4, h5⟩ := buildStory_history civ _ tl _ _ _ _ _ _ _ _ hst
    rw [hdem] at h1
    rw [hcc] at h2
    rw [hoh] at h3
    rw [hmh] at h4
    refine ⟨h1, h2, h3, h4, ?_⟩
    intro t
    rw [h5 t]
    rcases hfh with hnone | ⟨s, hsome⟩
    · rw [hnone]
      simp [pyTruthy]
    · rw [hsome]
      simp only [Option.getD_some]
      constructor
      · rintro ⟨hs, ht⟩
        refine ⟨s, rfl, ?_, ?_⟩
        · intro he
          rw [he] at hs
          simp [pyTruthy] at hs
        · simpa [pyStr] using ht
      · rintro ⟨s', hs', hne, ht⟩
        have hss : s = s' := by
          have := Option.some.inj hs'
          injection this
        subst hss
        refine ⟨by simp [pyTruthy, hne], by simpa [pyStr] using ht⟩

/-- Claim C7, witness: a record with all five history fields present. -/
theorem c7_witness :
    ∃ pr, case_to_pdf (.obj [("case_data", JVal.obj
        [("demographics", JVal.str "45F"), ("chief_complaint", JVal.str "blur"),
         ("ocular_history", JVal.str "none"), ("medical_history", JVal.str "HTN"),
         ("family_history", JVal.str "glaucoma")])]) "out" none = Except.ok pr
      ∧ Block.labeled "Demographics" "45F" ∈ pr.2
      ∧ Block.labeled "Chief Complaint" "blur" ∈ pr.2
      ∧ Block.labeled "Ocular History" "none" ∈ pr.2
      ∧ Block.labeled "Medical History" "HTN" ∈ pr.2
      ∧ Block.labeled "Family History" "glaucoma" ∈ pr.2 := by
  obtain ⟨pr, hpr⟩ : ∃ pr, case_to_pdf (.obj [("case_data", JVal.obj
      [("demographics", JVal.str "45F"), ("chief_complaint", JVal.str "blur"),
       ("ocular_history", JVal.str "none"), ("medical_history", JVal.str "HTN"),
       ("family_history", JVal.str "glaucoma")])]) "out" none = Except.ok pr := ⟨_, rfl⟩
  have hmain := c7_history_lines
    [("case_data", JVal.obj
      [("demographics", JVal.str "45F"), ("chief_complaint", JVal.str "blur"),
       ("ocular_history", JVal.str "none"), ("medical_history", JVal.str "HTN"),
       ("family_history", JVal.str "glaucoma")])]
    [("demographics", JVal.str "45F"), ("chief_complaint", JVal.str "blur"),
     ("ocular_history", JVal.str "none"), ("medical_history", JVal.str "HTN"),
     ("family_history", JVal.str "glaucoma")]
    "out" none pr.1 pr.2 "45F" "blur" "none" "HTN" (by rw [← hpr]) rfl rfl rfl rfl rfl
    (Or.inr ⟨"glaucoma", rfl⟩)
  refine ⟨pr, hpr, hmain.1, hmain.2.1, hmain.2.2.1, hmain.2.2.2.1, ?_⟩
  exact (hmain.2.2.2.2 "glaucoma").2 ⟨"glaucoma", rfl, by decide, rfl⟩

/-- Claim C8, counterexample: a record whose `case_id` is null makes the
composer raise (`"".join(...)` over `None` is a `TypeError`), so null
fields are not universally tolerated. -/
theorem c8_null_case_id_raises :
    case_to_pdf (.obj [("case_id", JVal.null)]) "." none = Except.error "TypeError" := rfl

/-- Claim C8 (amended): missing fields are tolerated at every nesting
level and null sub-objects are treated exactly like absent ones — with a
`case_id` that is absent or a string, a topic that is absent, null, or a
string, and a `case_data` that is absent, null, or a dict, composition
never raises; and dropping a null `case_data` from the record leaves the
output unchanged.  (A null `case_id` raises, and a null history value
renders as "None": see the counterexample.) -/
theorem c8_shape_tolerance :
    (∀ (fields : List (String × JVal)) (d : String),
      (List.lookup "case_id" fields = none
        ∨ ∃ s, List.lookup "case_id" fields = some (JVal.str s)) →
      (List.lookup "topic" fields = none
        ∨ List.lookup "topic" fields = some JVal.null
        ∨ ∃ s, List.lookup "topic" fields = some (JVal.str s)) →
      (List.lookup "case_data" fields = none
        ∨ List.lookup "case_data" fields = some JVal.null
        ∨ ∃ cd, List.lookup "case_data" fields = some (JVal.obj cd)) →
      ∃ p story, case_to_pdf (.obj fields) d none = Except.ok (p, story))
    ∧ (∀ (fields : List (String × JVal)) (d : String) (fn? : Option String),
      List.lookup "case_data" fields = some JVal.null →
      case_to_pdf (.obj fields) d fn?
        = case_to_pdf (.obj (fields.filter (fun kv => !(kv.1 == "case_data")))) d fn?) :=
  ⟨fun fields d hcid htop hcd => case_to_pdf_ok_of_shapes fields d hcid htop hcd,
   fun fields d fn? hnull => case_data_null_eq_absent fields d fn? hnull⟩

/-- Claim C8, witness: a record with null `case_data` and null topic
composes successfully and behaves like the record without them. -/
theorem c8_witness :
    (∃ p story, case_to_pdf (.obj [("case_data", JVal.null), ("topic", JVal.null)])
      "." none = Except.ok (p, story))
    ∧ case_to_pdf (.obj [("case_data", JVal.null), ("topic", JVal.null)]) "." none
      = case_to_pdf (.obj ([("case_data", JVal.null), ("topic", JVal.null)].filter
          (fun kv => !(kv.1 == "case_data")))) "." none :=
  ⟨c8_shape_tolerance.1 [("case_data", JVal.null), ("topic", JVal.null)] "."
      (Or.inl rfl) (Or.inr (Or.inl rfl)) (Or.inr (Or.inl rfl)),
    c8_shape_tolerance.2 [("case_data", JVal.null), ("topic", JVal.null)] "." none rfl⟩

/-- Claim C9: the field orderer returns the empty sequence, rather than
raising, on every input value that is not a mapping. -/
theorem c9_non_mapping_empty (v : JVal) (pref : List String)
    (h : ∀ fields, v ≠ JVal.obj fields) : _ordered_items v pref = [] := by
  cases v with
  | obj fields => exact absurd rfl (h fields)
  | null => rfl
  | str s => rfl
  | num n => rfl
  | list l => rfl

/-- Claim C9, witness: a string where a fields mapping is expected. -/
theorem c9_witness :
    (∀ fields, JVal.str "oops" ≠ JVal.obj fields)
    ∧ _ordered_items (JVal.str "oops") CLINICAL_PREFERRED_ORDER = [] :=
  ⟨fun _ h => JVal.noConfusion h,
    c9_non_mapping_empty _ CLINICAL_PREFERRED_ORDER (fun _ h => JVal.noConfusion h)⟩

/-- Claim C10: a two-record batch whose case ids sanitize to the same
string produces the same output path for both records, and the returned
list still has one entry per record, in input order. -/
theorem c10_batch_duplicate_paths
    (f1 f2 : List (String × JVal)) (id1 id2 d : String) (ps : List String)
    (h1 : List.lookup "case_id" f1 = some (JVal.str id1))
    (h2 : List.lookup "case_id" f2 = some (JVal.str id2))
    (hsan : pySanitize id1 = pySanitize id2)
    (h : batch_from_json (.list [.obj f1, .obj f2]) d = Except.ok ps) :
    ps = [osPathJoin d (pySanitize id1 ++ ".pdf"), osPathJoin d (pySanitize id1 ++ ".pdf")]
    ∧ ps.length = 2 := by
  have hps := batch_two_paths h1 h2 h
  rw [← hsan] at hps
  exact ⟨hps, by rw [hps]; rfl⟩

/-- Claim C10, witness: the ids "A/B" and "A_B" both sanitize to
"A_B". -/
theorem c10_witness :
    ∃ ps, batch_from_json (.list [.obj [("case_id", JVal.str "A/B")],
        .obj [("case_id", JVal.str "A_B")]]) "d" = Except.ok ps
      ∧ ps = [osPathJoin "d" (pySanitize "A/B" ++ ".pdf"),
          osPathJoin "d" (pySanitize "A/B" ++ ".pdf")]
      ∧ ps.length = 2 := by
  obtain ⟨ps, hps⟩ : ∃ ps, batch_from_json (.list [.obj [("case_id", JVal.str "A/B")],
      .obj [("case_id", JVal.str "A_B")]]) "d" = Except.ok ps := ⟨_, rfl⟩
  have hmain := c10_batch_duplicate_paths [("case_id", JVal.str "A/B")]
    [("case_id", JVal.str "A_B")] "A/B" "A_B" "d" ps rfl rfl (by decide) hps
  exact ⟨ps, hps, hmain.1, hmain.2⟩

end CasePdf
